import Mathlib

/-!
Shallow embedding of the topbeat sampling core (`src/main.go`): the stateful
tracking of previous CPU snapshots, the percentage derivations with their
division edge cases, the round-half-up helper, and the process-name matcher.

Floating-point values (`float64`) are embedded as exact rationals extended
with the IEEE special values `+Inf`, `-Inf` and `NaN`, so that unguarded
divisions by zero are modelled faithfully.  Machine integers (`uint64`,
`int64`) are embedded as `Nat`/`Int` with explicit reduction modulo `2^64`
where Go's wrap-around arithmetic applies.
-/

set_option autoImplicit false

namespace Topbeat

/-- `2^64`, the modulus of Go's `uint64` arithmetic. -/
def u64 : ℕ := 18446744073709551616

/-- Go `uint64` subtraction `a - b` (wrap-around modulo `2^64`). -/
def usub64 (a b : ℕ) : ℕ := (a % u64 + u64 - b % u64) % u64

/-- Go `uint64` addition `a + b` (wrap-around modulo `2^64`). -/
def uadd64 (a b : ℕ) : ℕ := (a + b) % u64

/-- Go `uint64` multiplication `a * b` (wrap-around modulo `2^64`). -/
def umul64 (a b : ℕ) : ℕ := (a * b) % u64

/-- A Go `float64` value, embedded as an exact rational or one of the IEEE
special values.  Rounding of reals to binary floating point is abstracted
away; the special values produced by division by zero are kept. -/
inductive GoFloat where
  | finite (q : ℚ)
  | posInf
  | negInf
  | nan
  deriving DecidableEq

namespace GoFloat

/-- IEEE multiplication on the embedded values. -/
def mul : GoFloat → GoFloat → GoFloat
  | nan, _ => nan
  | _, nan => nan
  | finite a, finite b => finite (a * b)
  | finite a, posInf => if 0 < a then posInf else if a < 0 then negInf else nan
  | finite a, negInf => if 0 < a then negInf else if a < 0 then posInf else nan
  | posInf, finite b => if 0 < b then posInf else if b < 0 then negInf else nan
  | negInf, finite b => if 0 < b then negInf else if b < 0 then posInf else nan
  | posInf, posInf => posInf
  | posInf, negInf => negInf
  | negInf, posInf => negInf
  | negInf, negInf => posInf

/-- IEEE division on the embedded values: division of a nonzero finite value
by (positive) zero yields an infinity, `0/0` yields `NaN`. -/
def div : GoFloat → GoFloat → GoFloat
  | nan, _ => nan
  | _, nan => nan
  | finite a, finite b =>
      if b = 0 then (if a = 0 then nan else if 0 < a then posInf else negInf)
      else finite (a / b)
  | finite _, posInf => finite 0
  | finite _, negInf => finite 0
  | posInf, finite b => if b < 0 then negInf else posInf
  | negInf, finite b => if b < 0 then posInf else negInf
  | posInf, posInf => nan
  | posInf, negInf => nan
  | negInf, posInf => nan
  | negInf, negInf => nan

/-- IEEE `>=` comparison: any comparison involving `NaN` is `false`. -/
def ge : GoFloat → GoFloat → Bool
  | nan, _ => false
  | _, nan => false
  | posInf, _ => true
  | _, posInf => false
  | finite a, finite b => decide (b ≤ a)
  | finite _, negInf => true
  | negInf, negInf => true
  | negInf, finite _ => false

/-- Go `math.Floor`: the identity on `±Inf` and `NaN`. -/
def floor : GoFloat → GoFloat
  | finite q => finite ((⌊q⌋ : ℤ) : ℚ)
  | posInf => posInf
  | negInf => negInf
  | nan => nan

/-- Go `math.Ceil`: the identity on `±Inf` and `NaN`. -/
def ceil : GoFloat → GoFloat
  | finite q => finite ((⌈q⌉ : ℤ) : ℚ)
  | posInf => posInf
  | negInf => negInf
  | nan => nan

end GoFloat

/-- Truncation toward zero of a rational (the integer part returned by Go's
`math.Modf`). -/
def ratTrunc (q : ℚ) : ℚ := if 0 ≤ q then ((⌊q⌋ : ℤ) : ℚ) else ((⌈q⌉ : ℤ) : ℚ)

/-- Go `math.Modf`: splits a value into integer and fractional parts (both
with the sign of the input); `Modf(±Inf) = (±Inf, NaN)`, `Modf(NaN) = (NaN, NaN)`. -/
def GoFloat.modf : GoFloat → GoFloat × GoFloat
  | finite q => (finite (ratTrunc q), finite (q - ratTrunc q))
  | posInf => (posInf, nan)
  | negInf => (negInf, nan)
  | nan => (nan, nan)

/-- `Round` from `src/main.go` (lines 333-345): scale by `10^places`, take the
fractional part with `math.Modf`, round the scaled value up with `math.Ceil`
when the fractional part is `>= roundOn` and down with `math.Floor` otherwise,
then divide back by the scale. -/
def Round (val roundOn : GoFloat) (places : ℕ) : GoFloat :=
  let pow : GoFloat := .finite ((10 : ℚ) ^ places)
  let digit : GoFloat := pow.mul val
  let div : GoFloat := (digit.modf).2
  let round : GoFloat := if div.ge roundOn then digit.ceil else digit.floor
  GoFloat.div round pow

/-- The value of `Round` on finite (exact rational) inputs; this is also the
reference rounding computation the spec describes: scale `value` by
`10^places`, split the scaled value into integer and fractional parts, apply
the ceiling if the fractional part is at least the threshold and the floor
otherwise, then divide back by `10^places`. -/
def roundRat (val roundOn : ℚ) (places : ℕ) : ℚ :=
  let pow : ℚ := 10 ^ places
  let digit : ℚ := pow * val
  let frac : ℚ := digit - ratTrunc digit
  let round : ℚ := if roundOn ≤ frac then ((⌈digit⌉ : ℤ) : ℚ) else ((⌊digit⌋ : ℤ) : ℚ)
  round / pow

theorem Round_finite (q t : ℚ) (p : ℕ) :
    Round (.finite q) (.finite t) p = .finite (roundRat q t p) := by
  have hp : (10 : ℚ) ^ p ≠ 0 := by positivity
  by_cases h : t ≤ (10 : ℚ) ^ p * q - ratTrunc ((10 : ℚ) ^ p * q) <;>
    simp [Round, roundRat, GoFloat.mul, GoFloat.modf, GoFloat.ge, GoFloat.ceil,
      GoFloat.floor, GoFloat.div, h, hp]

theorem Round_nan (t : GoFloat) (p : ℕ) : Round .nan t p = .nan := by
  simp [Round, GoFloat.mul, GoFloat.modf, GoFloat.ge, GoFloat.floor, GoFloat.div]

theorem Round_posInf (t : GoFloat) (p : ℕ) : Round .posInf t p = .posInf := by
  have hp : (0 : ℚ) < 10 ^ p := by positivity
  have hp2 : ¬((10 : ℚ) ^ p < 0) := not_lt.mpr hp.le
  simp [Round, GoFloat.mul, GoFloat.modf, GoFloat.ge, GoFloat.floor, GoFloat.div, hp, hp2]

theorem GoFloat.div_finite (x y : ℚ) (h : y ≠ 0) :
    GoFloat.div (.finite x) (.finite y) = .finite (x / y) := by
  simp [GoFloat.div, h]

/-- A regular-expression atom: a literal character or the wildcard `.` . -/
inductive RItem where
  | dot
  | lit (c : Char)
  deriving DecidableEq

/-- A parsed pattern body: a sequence of atoms, each optionally starred. -/
abbrev RBody := List (RItem × Bool)

/-- Whether an atom matches a single character. -/
def itemMatches : RItem → Char → Bool
  | .dot, _ => true
  | .lit c, c2 => c = c2

/-- Core matcher: does the body match a prefix of `s` (all of `s` when
`anchorEnd` is set)?  `fuel` only forces termination; `s.length + pat.length + 1`
is always sufficient. -/
def matchCore : ℕ → RBody → List Char → Bool → Bool
  | 0, _, _, _ => false
  | _ + 1, [], s, anchorEnd => !anchorEnd || s.isEmpty
  | fuel + 1, (it, false) :: rest, s, anchorEnd =>
      match s with
      | [] => false
      | c :: cs => itemMatches it c && matchCore fuel rest cs anchorEnd
  | fuel + 1, (it, true) :: rest, s, anchorEnd =>
      matchCore fuel rest s anchorEnd ||
        match s with
        | [] => false
        | c :: cs => itemMatches it c && matchCore fuel ((it, true) :: rest) cs anchorEnd

/-- Run the core matcher with sufficient fuel. -/
def runMatchCore (pat : RBody) (s : List Char) (anchorEnd : Bool) : Bool :=
  matchCore (s.length + pat.length + 1) pat s anchorEnd

/-- Unanchored-start matching: try the core matcher at every suffix of `s`. -/
def matchFrom : ℕ → RBody → List Char → Bool → Bool
  | 0, _, _, _ => false
  | fuel + 1, pat, s, anchorEnd =>
      runMatchCore pat s anchorEnd ||
        match s with
        | [] => false
        | _ :: cs => matchFrom fuel pat cs anchorEnd

/-- Matching of a parsed pattern against a string: unanchored at either side
unless the corresponding anchor was present. -/
def goRegexMatch (anchorStart : Bool) (pat : RBody) (anchorEnd : Bool)
    (s : List Char) : Bool :=
  if anchorStart then runMatchCore pat s anchorEnd
  else matchFrom (s.length + 1) pat s anchorEnd

/-- Parse a pattern body: a sequence of atoms (`.` or a literal character),
each optionally followed by `*`.  Metacharacters this model does not support,
and a `*` with no preceding atom, make the pattern invalid (`none`). -/
def parseBody : List Char → Option RBody
  | [] => some []
  | c :: '*' :: rest =>
      if c = '*' then none
      else if c ∈ ['(', ')', '[', ']', '{', '}', '|', '+', '?', '\\', '^', '$'] then none
      else (parseBody rest).map fun b => ((if c = '.' then RItem.dot else .lit c), true) :: b
  | c :: rest =>
      if c = '*' then none
      else if c ∈ ['(', ')', '[', ']', '{', '}', '|', '+', '?', '\\', '^', '$'] then none
      else (parseBody rest).map fun b => ((if c = '.' then RItem.dot else .lit c), false) :: b

/-- Parse a full pattern: an optional leading `^` anchor, an optional trailing
`$` anchor, and a body. -/
def parsePattern (p : String) : Option (Bool × RBody × Bool) :=
  let cs0 := p.toList
  let startStrip : Bool × List Char :=
    match cs0 with
    | '^' :: rest => (true, rest)
    | _ => (false, cs0)
  let endStrip : Bool × List Char :=
    match startStrip.2.getLast? with
    | some '$' => (true, startStrip.2.dropLast)
    | _ => (false, startStrip.2)
  (parseBody endStrip.2).map fun b => (startStrip.1, b, endStrip.1)

/-- Modelled from the spec: Go's `regexp.MatchString(pattern, s)` from the
standard library (code not part of this repository): reports whether `s`
contains any match of the pattern — unanchored regular-expression semantics —
or a compile error when the pattern is not a valid regular expression. -/
def regexpMatchString (pattern s : String) : Except String Bool :=
  match parsePattern pattern with
  | none => .error "error parsing regexp"
  | some (anchorStart, body, anchorEnd) =>
      .ok (goRegexMatch anchorStart body anchorEnd s.toList)

/-- `Topbeat.MatchProcess` from `src/main.go` (lines 35-44): scan the
configured patterns in order and return `true` on the first one that matches;
the error result of `regexp.MatchString` is discarded (`matched, _ := ...`),
so an invalid pattern behaves as a non-match. -/
def MatchProcess (procs : List String) (name : String) : Bool :=
  procs.any fun reg =>
    match regexpMatchString reg name with
    | .ok matched => matched
    | .error _ => false

/-- Modelled from the spec: the system CPU snapshot (`CpuTimes`, declared
outside `src/main.go`): eight cumulative `uint64` counters.  The derived
`UserPercent` field is not represented; `getCpuPercentage` never reads it. -/
structure CpuTimes where
  user : ℕ
  nice : ℕ
  system : ℕ
  idle : ℕ
  iowait : ℕ
  irq : ℕ
  softirq : ℕ
  steal : ℕ
  deriving DecidableEq

/-- The mathematical (unwrapped) sum of the eight counters. -/
def CpuTimes.rawSum (t : CpuTimes) : ℕ :=
  t.user + t.nice + t.system + t.idle + t.iowait + t.irq + t.softirq + t.steal

/-- `CpuTimes.sum` from `src/main.go` (lines 346-349): the eight counters
added in `uint64` arithmetic. -/
def CpuTimes.sum (t : CpuTimes) : ℕ := t.rawSum % u64

/-- `Topbeat.getCpuPercentage` from `src/main.go` (lines 70-85).  The receiver
state `t.lastCpuTimes` is passed and returned explicitly: if a previous
snapshot exists, `perc = float64(100*user_delta) / float64(all_delta)` with
`uint64` deltas and no guard on `all_delta`; the baseline is always replaced
by the current snapshot; the result is `Round(perc, .5, 2)`. -/
def getCpuPercentage (lastCpuTimes : Option CpuTimes) (t2 : CpuTimes) :
    GoFloat × Option CpuTimes :=
  let perc : GoFloat :=
    match lastCpuTimes with
    | none => .finite 0
    | some t1 =>
        GoFloat.div (.finite ((umul64 100 (usub64 t2.user t1.user) : ℕ) : ℚ))
          (.finite ((usub64 t2.sum t1.sum : ℕ) : ℚ))
  (Round perc (.finite (1/2)) 2, some t2)

/-- Modelled from the spec: the per-process CPU times (`ProcCpuTime`, declared
outside `src/main.go`): cumulative user and system time in millisecond units
(`uint64`), plus the derived `UserPercent` field filled in by the exporter. -/
structure ProcCpuTimes where
  user : ℕ
  system : ℕ
  userPercent : GoFloat
  deriving DecidableEq

/-- Modelled from the spec: the per-process memory statistics (`ProcMemStat`,
declared outside `src/main.go`): resident set size in bytes (`uint64`), plus
the derived `RssPercent` field filled in by the exporter. -/
structure ProcMemStat where
  rss : ℕ
  rssPercent : GoFloat
  deriving DecidableEq

/-- Modelled from the spec: a process snapshot (`Process`, declared outside
`src/main.go`): pid, parent pid, name, state, CPU times, memory statistics
and the capture timestamp `ctime` (in nanoseconds, as produced by
`time.Time.Sub(...).Nanoseconds()`). -/
structure Process where
  pid : ℤ
  ppid : ℤ
  name : String
  state : String
  cpu : ProcCpuTimes
  mem : ProcMemStat
  ctime : ℤ
  deriving DecidableEq

/-- `ProcsMap` from `src/main.go` (line 23): `map[int]*Process`. -/
def ProcsMap := ℤ → Option Process

/-- Go map assignment `m[pid] = p`. -/
def ProcsMap.update (m : ProcsMap) (pid : ℤ) (p : Process) : ProcsMap :=
  fun k => if k = pid then some p else m k

/-- Go `make(ProcsMap)`: the empty map. -/
def emptyProcsMap : ProcsMap := fun _ => none

/-- Modelled from the spec: the system memory statistics (`MemStat`, declared
outside `src/main.go`); only the fields `getRssPercent` and
`getUsedMemPercent` read are represented. -/
structure MemStat where
  total : ℕ
  used : ℕ
  deriving DecidableEq

/-- `Topbeat.getProcCpuPercentage` from `src/main.go` (lines 87-101).  The
receiver state `t.procsMap` is passed and returned explicitly.  When a
baseline exists for `proc.Pid`: `delta_proc` is the `uint64` sum of the user
and system deltas, `delta_time` the capture-time delta in milliseconds
(truncating `int64` division of nanoseconds by `1e6`), and the result is
`Round(float64(delta_proc)/float64(delta_time)*100, .5, 2)` with the baseline
replaced.  When no baseline exists: `0` is returned and the map is untouched. -/
def getProcCpuPercentage (m : ProcsMap) (proc : Process) : GoFloat × ProcsMap :=
  match m proc.pid with
  | some oproc =>
      let delta_proc : ℕ :=
        uadd64 (usub64 proc.cpu.user oproc.cpu.user)
          (usub64 proc.cpu.system oproc.cpu.system)
      let delta_time : ℤ := Int.tdiv (proc.ctime - oproc.ctime) 1000000
      let perc : GoFloat :=
        GoFloat.mul (GoFloat.div (.finite (delta_proc : ℚ)) (.finite (delta_time : ℚ)))
          (.finite 100)
      (Round perc (.finite (1/2)) 2, m.update proc.pid proc)
  | none => (.finite 0, m)

/-- `Topbeat.getRssPercent` from `src/main.go` (lines 56-68).  The result of
the external `GetMemory()` call is passed as a parameter: on error, a warning
is logged and `0.0` returned; otherwise
`Round((float64(m.Rss)/float64(total_phymem))*100, .5, 2)` with no guard on a
zero total. -/
def getRssPercent (memResult : Except String MemStat) (m : ProcMemStat) : GoFloat :=
  match memResult with
  | .error _ => .finite 0
  | .ok mem_stat =>
      Round (GoFloat.mul (GoFloat.div (.finite (m.rss : ℚ)) (.finite (mem_stat.total : ℚ)))
        (.finite 100)) (.finite (1/2)) 2

/-- The `config.Procs` defaulting in `Topbeat.Init` from `src/main.go`
(lines 110-114): an absent pattern list defaults to the single catch-all
pattern `".*"`; an explicitly present list (even the empty one) is kept. -/
def initProcsConfig (configProcs : Option (List String)) : List String :=
  match configProcs with
  | some ps => ps
  | none => [".*"]

/-- `Topbeat.initProcStats` from `src/main.go` (lines 123-146).  The external
`Pids()` result and the per-pid `GetProcess` results are parameters.  The map
is reset to empty first; when the configured pattern list is empty the
function returns at once; a `Pids()` error only logs a warning (the loop then
runs over no pids); a failed per-pid fetch is skipped. -/
def initProcStats (procs : List String) (pidsRes : Except String (List ℤ))
    (fetch : ℤ → Except String Process) : ProcsMap :=
  let m : ProcsMap := emptyProcsMap
  if procs.isEmpty then m
  else
    let pids : List ℤ :=
      match pidsRes with
      | .error _ => []
      | .ok l => l
    pids.foldl
      (fun acc pid =>
        match fetch pid with
        | .error _ => acc
        | .ok p => acc.update p.pid p)
      m

/-- The per-pid body of the loop in `Topbeat.exportProcStats` from
`src/main.go` (lines 160-186): a failed fetch is skipped; a fetched process
whose name matches gets its `UserPercent` and `RssPercent` filled in, is
stored in the map (the in-map pointer written by `getProcCpuPercentage` is
the same object the caller then enriches and re-stores), and one proc event
carrying it is emitted; a non-matching process is left entirely alone. -/
def exportProcStep (procs : List String) (memRes : Except String MemStat)
    (acc : ProcsMap × List Process) (fetched : Except String Process) :
    ProcsMap × List Process :=
  match fetched with
  | .error _ => acc
  | .ok process =>
      if MatchProcess procs process.name then
        let r := getProcCpuPercentage acc.1 process
        let process1 : Process := { process with cpu.userPercent := r.1 }
        let process2 : Process := { process1 with mem.rssPercent := getRssPercent memRes process1.mem }
        (ProcsMap.update r.2 process2.pid process2, acc.2 ++ [process2])
  else acc

/-- `Topbeat.exportProcStats` from `src/main.go` (lines 148-188).  The
external inputs of one tick — the `Pids()` result, the per-pid `GetProcess`
results and the `GetMemory()` result — are parameters; the emitted proc
events are returned as a list.  An empty configured pattern list returns
immediately; a `Pids()` error returns the error. -/
def exportProcStats (procs : List String) (m : ProcsMap)
    (pidsRes : Except String (List ℤ)) (fetch : ℤ → Except String Process)
    (memRes : Except String MemStat) :
    ProcsMap × List Process × Except String Unit :=
  if procs.isEmpty then (m, [], .ok ())
  else
    match pidsRes with
    | .error e => (m, [], .error e)
    | .ok pids =>
        let r := pids.foldl (fun acc pid => exportProcStep procs memRes acc (fetch pid)) (m, [])
        (r.1, r.2, .ok ())

/-- The external inputs consumed by the proc half of one tick of the `Run`
loop. -/
structure ProcTick where
  pidsRes : Except String (List ℤ)
  fetch : ℤ → Except String Process
  memRes : Except String MemStat

/-- The proc half of the `Run` loop from `src/main.go` (lines 250-263):
repeated `exportProcStats` ticks threading the map, collecting all emitted
proc events. -/
def runProcTicks (procs : List String) (m : ProcsMap) :
    List ProcTick → ProcsMap × List Process
  | [] => (m, [])
  | tick :: rest =>
      let r := exportProcStats procs m tick.pidsRes tick.fetch tick.memRes
      let r2 := runProcTicks procs r.1 rest
      (r2.1, r.2.1 ++ r2.2)

theorem usub64_eq (a b : ℕ) (hba : b ≤ a) (ha : a < u64) : usub64 a b = a - b := by
  unfold usub64 u64 at *
  omega

theorem usub64_self (a : ℕ) : usub64 a a = 0 := by
  unfold usub64 u64
  omega

theorem uadd64_eq (a b : ℕ) (h : a + b < u64) : uadd64 a b = a + b :=
  Nat.mod_eq_of_lt h

theorem umul64_eq (a b : ℕ) (h : a * b < u64) : umul64 a b = a * b :=
  Nat.mod_eq_of_lt h

theorem CpuTimes.sum_eq (t : CpuTimes) (h : t.rawSum < u64) : t.sum = t.rawSum :=
  Nat.mod_eq_of_lt h

theorem roundRat_eq (q t : ℚ) (p : ℕ) (h : 0 ≤ q) :
    roundRat q t p =
      (if t ≤ Int.fract ((10 : ℚ) ^ p * q) then ((⌈(10 : ℚ) ^ p * q⌉ : ℤ) : ℚ)
       else ((⌊(10 : ℚ) ^ p * q⌋ : ℤ) : ℚ)) / 10 ^ p := by
  have hd : (0 : ℚ) ≤ (10 : ℚ) ^ p * q := by positivity
  simp only [roundRat, ratTrunc, if_pos hd, Int.self_sub_floor]

theorem roundRat_zero (t : ℚ) (p : ℕ) : roundRat 0 t p = 0 := by
  rw [roundRat_eq 0 t p le_rfl]
  simp

theorem roundRat_nonneg (q t : ℚ) (p : ℕ) (h : 0 ≤ q) : 0 ≤ roundRat q t p := by
  have hpow : (0 : ℚ) < 10 ^ p := by positivity
  have hd : (0 : ℚ) ≤ (10 : ℚ) ^ p * q := by positivity
  rw [roundRat_eq q t p h]
  apply div_nonneg _ hpow.le
  split
  · exact_mod_cast Int.ceil_nonneg hd
  · exact_mod_cast Int.floor_nonneg.mpr hd

theorem roundRat_le_hundred (q t : ℚ) (p : ℕ) (h0 : 0 ≤ q) (h : q ≤ 100) :
    roundRat q t p ≤ 100 := by
  have hpow : (0 : ℚ) < 10 ^ p := by positivity
  have hdle : (10 : ℚ) ^ p * q ≤ 10 ^ p * 100 := by nlinarith
  have hcast : ((((10 : ℤ) ^ p * 100 : ℤ)) : ℚ) = 10 ^ p * 100 := by push_cast; ring
  have hceil2 : (⌈(10 : ℚ) ^ p * q⌉ : ℤ) ≤ ((10 : ℤ) ^ p * 100 : ℤ) :=
    Int.ceil_le.mpr (by rw [hcast]; exact hdle)
  have hceil : ((⌈(10 : ℚ) ^ p * q⌉ : ℤ) : ℚ) ≤ 10 ^ p * 100 := by
    calc ((⌈(10 : ℚ) ^ p * q⌉ : ℤ) : ℚ) ≤ (((10 : ℤ) ^ p * 100 : ℤ) : ℚ) := by
          exact_mod_cast hceil2
    _ = 10 ^ p * 100 := hcast
  have hfloor : ((⌊(10 : ℚ) ^ p * q⌋ : ℤ) : ℚ) ≤ 10 ^ p * 100 :=
    le_trans (Int.floor_le _) hdle
  rw [roundRat_eq q t p h0, div_le_iff₀ hpow]
  have h100 : (100 : ℚ) * 10 ^ p = 10 ^ p * 100 := by ring
  rw [h100]
  split
  · exact hceil
  · exact hfloor

theorem roundRat_half_eq (q : ℚ) (p : ℕ) (h : 0 ≤ q) :
    roundRat q (1/2) p = ((⌊q * 10 ^ p + 1/2⌋ : ℤ) : ℚ) / 10 ^ p := by
  rw [roundRat_eq q (1/2) p h, mul_comm q]
  set d : ℚ := (10 : ℚ) ^ p * q with hdef
  have hfr0 : (0 : ℚ) ≤ Int.fract d := Int.fract_nonneg d
  have hfr1 : Int.fract d < 1 := Int.fract_lt_one d
  have hsum : ((⌊d⌋ : ℤ) : ℚ) + Int.fract d = d := Int.floor_add_fract d
  congr 1
  by_cases hc : (1 : ℚ) / 2 ≤ Int.fract d
  · rw [if_pos hc]
    have hceil : (⌈d⌉ : ℤ) = ⌊d⌋ + 1 := by
      rw [Int.ceil_eq_iff]
      refine ⟨by push_cast; linarith, by push_cast; linarith⟩
    have hfl : (⌊d + 1/2⌋ : ℤ) = ⌊d⌋ + 1 := by
      rw [Int.floor_eq_iff]
      refine ⟨by push_cast; linarith, by push_cast; linarith⟩
    rw [hceil, hfl]
  · rw [if_neg hc]
    push_neg at hc
    have hfl : (⌊d + 1/2⌋ : ℤ) = ⌊d⌋ := by
      rw [Int.floor_eq_iff]
      refine ⟨by linarith [Int.floor_le d], by linarith⟩
    rw [hfl]

theorem roundRat_floor_case (q t : ℚ) (p : ℕ) (n : ℤ) (h0 : 0 ≤ q)
    (hfl : ⌊(10 : ℚ) ^ p * q⌋ = n) (hlt : (10 : ℚ) ^ p * q - (n : ℚ) < t) :
    roundRat q t p = (n : ℚ) / 10 ^ p := by
  rw [roundRat_eq _ _ _ h0, ← Int.self_sub_floor, hfl, if_neg (not_le.mpr hlt)]

theorem roundRat_ceil_case (q t : ℚ) (p : ℕ) (nf nc : ℤ) (h0 : 0 ≤ q)
    (hfl : ⌊(10 : ℚ) ^ p * q⌋ = nf) (hcl : ⌈(10 : ℚ) ^ p * q⌉ = nc)
    (hge : t ≤ (10 : ℚ) ^ p * q - (nf : ℚ)) :
    roundRat q t p = (nc : ℚ) / 10 ^ p := by
  rw [roundRat_eq _ _ _ h0, ← Int.self_sub_floor, hfl, hcl, if_pos hge]

theorem roundRat_two345 : roundRat (469/200) (1/2) 2 = 47/20 := by
  have hq : (0 : ℚ) ≤ 469/200 := by norm_num
  rw [roundRat_eq _ _ _ hq]
  have hd : (10 : ℚ) ^ 2 * (469/200) = 469/2 := by norm_num
  rw [hd]
  have hfl : (⌊(469/2 : ℚ)⌋ : ℤ) = 234 := by norm_num [Int.floor_eq_iff]
  have hcl : (⌈(469/2 : ℚ)⌉ : ℤ) = 235 := by norm_num [Int.ceil_eq_iff]
  rw [← Int.self_sub_floor, hfl, hcl]
  norm_num

/-- C6: `Round(value, threshold, places)` equals the reference definition
(scale by `10^places`, split the scaled value into integer and fractional
parts, ceiling when the fractional part reaches the threshold and floor
otherwise, divide back), here `roundRat`; for non-negative inputs with
threshold `0.5` it reproduces round-half-up at the given precision exactly;
in particular `Round(2.345, 0.5, 2) = 2.35` (as exact rationals,
`2.345 = 469/200` and `2.35 = 47/20`) and `Round(0, 0.5, 2) = 0`. -/
theorem Round_matches_reference :
    (∀ (q t : ℚ) (p : ℕ), Round (.finite q) (.finite t) p = .finite (roundRat q t p)) ∧
    (∀ (q : ℚ) (p : ℕ), 0 ≤ q →
      roundRat q (1/2) p = ((⌊q * 10 ^ p + 1/2⌋ : ℤ) : ℚ) / 10 ^ p) ∧
    Round (.finite (469/200)) (.finite (1/2)) 2 = .finite (47/20) ∧
    Round (.finite 0) (.finite (1/2)) 2 = .finite 0 := by
  refine ⟨Round_finite, roundRat_half_eq, ?_, ?_⟩
  · rw [Round_finite, roundRat_two345]
  · rw [Round_finite, roundRat_zero]

/-- Witness for C6: the round-half-up characterization applied at the
concrete input `2.345` with `places = 2`. -/
theorem Round_matches_reference_witness :
    roundRat (469/200) (1/2) 2 = ((⌊(469/200 : ℚ) * 10 ^ 2 + 1/2⌋ : ℤ) : ℚ) / 10 ^ 2 :=
  Round_matches_reference.2.1 (469/200) 2 (by norm_num)

/-- A concrete process snapshot (pid 7, captured at time 0). -/
def snapC : Process :=
  { pid := 7, ppid := 1, name := "loop", state := "R",
    cpu := { user := 0, system := 0, userPercent := .finite 0 },
    mem := { rss := 500, rssPercent := .finite 0 }, ctime := 0 }

/-- A later snapshot of pid 7: 7 ms more CPU but captured only 0.4 ms
(400000 ns) later, so the wall-clock delta truncates to 0 ms. -/
def snapD : Process :=
  { snapC with cpu := { user := 7, system := 0, userPercent := .finite 0 }, ctime := 400000 }

/-- A later snapshot of pid 7: 130 ms more CPU, captured 2000 ms later. -/
def snapE : Process :=
  { pid := 7, ppid := 1, name := "loop", state := "R",
    cpu := { user := 100, system := 30, userPercent := .finite 0 },
    mem := { rss := 500, rssPercent := .finite 0 }, ctime := 2000000000 }

/-- A tracker map holding only the baseline `snapC` for pid 7. -/
def mapC : ProcsMap := fun k => if k = 7 then some snapC else none

/-- Counterexample to C2: with no stored baseline, `getProcCpuPercentage`
returns 0 but does NOT store the current snapshot — the returned map still
has no entry for the pid.  (The store happens later, in `exportProcStats`
line 172, and only for matched processes.) -/
theorem getProcCpuPercentage_no_store_cex :
    (getProcCpuPercentage emptyProcsMap snapE).1 = .finite 0 ∧
    (getProcCpuPercentage emptyProcsMap snapE).2 snapE.pid = none :=
  ⟨rfl, rfl⟩

/-- C2 (amended): for a pid with no stored baseline, `getProcCpuPercentage`
returns 0 and leaves the map unchanged; the caller (`exportProcStats`) is
the one that stores the snapshot afterwards, and only for matched
processes. -/
theorem getProcCpuPercentage_new_pid (m : ProcsMap) (p : Process) (h : m p.pid = none) :
    getProcCpuPercentage m p = (.finite 0, m) := by
  unfold getProcCpuPercentage
  rw [h]

/-- Witness for C2: a newly observed pid on the empty map. -/
theorem getProcCpuPercentage_new_pid_witness :
    getProcCpuPercentage emptyProcsMap snapC = (.finite 0, emptyProcsMap) :=
  getProcCpuPercentage_new_pid emptyProcsMap snapC rfl

/-- Counterexample to C3: with a stored baseline and a wall-clock delta of 0
milliseconds but positive CPU delta, `getProcCpuPercentage` returns `+Inf`,
not 0 — the division `float64(delta_proc)/float64(delta_time)` on line 94 of
`src/main.go` is not guarded. -/
theorem getProcCpuPercentage_zero_wall_cex :
    (getProcCpuPercentage mapC snapD).1 = .posInf ∧ GoFloat.posInf ≠ .finite 0 := by
  constructor
  · decide
  · decide

/-- C3 (amended): for a pid with a stored baseline, when the wall-clock delta
truncates to 0 ms the unguarded division yields `+Inf` (positive CPU delta)
or `NaN` (zero CPU delta), which `Round` propagates — not 0; otherwise the
result is `100 * deltaCpuMs / deltaWallMs` rounded to two decimals, with
`deltaCpuMs = (current.user - prev.user) + (current.system - prev.system)`
in `uint64` arithmetic.  The baseline is replaced in both cases. -/
theorem getProcCpuPercentage_known (m : ProcsMap) (p op : Process) (h : m p.pid = some op) :
    getProcCpuPercentage m p =
      (if Int.tdiv (p.ctime - op.ctime) 1000000 = 0 then
        (if uadd64 (usub64 p.cpu.user op.cpu.user) (usub64 p.cpu.system op.cpu.system) = 0
         then GoFloat.nan else GoFloat.posInf)
       else
        .finite (roundRat
          (100 * ((uadd64 (usub64 p.cpu.user op.cpu.user)
              (usub64 p.cpu.system op.cpu.system) : ℕ) : ℚ)
            / ((Int.tdiv (p.ctime - op.ctime) 1000000 : ℤ) : ℚ)) (1/2) 2),
       m.update p.pid p) := by
  unfold getProcCpuPercentage
  rw [h]
  simp only
  set dp : ℕ :=
    uadd64 (usub64 p.cpu.user op.cpu.user) (usub64 p.cpu.system op.cpu.system) with hdp
  set dt : ℤ := Int.tdiv (p.ctime - op.ctime) 1000000 with hdt
  by_cases h0 : dt = 0
  · rw [if_pos h0, h0]
    by_cases hp0 : dp = 0
    · rw [if_pos hp0, hp0]
      simp only [Nat.cast_zero, Int.cast_zero]
      rw [Prod.mk.injEq]
      refine ⟨?_, rfl⟩
      rw [show GoFloat.div (.finite (0 : ℚ)) (.finite 0) = .nan by simp [GoFloat.div]]
      rw [show GoFloat.mul .nan (.finite 100) = .nan from rfl]
      exact Round_nan _ _
    · rw [if_neg hp0]
      have hpos : (0 : ℚ) < (dp : ℚ) := by exact_mod_cast Nat.pos_of_ne_zero hp0
      simp only [Int.cast_zero]
      rw [Prod.mk.injEq]
      refine ⟨?_, rfl⟩
      rw [show GoFloat.div (.finite (dp : ℚ)) (.finite 0) = .posInf by
        simp [GoFloat.div, hpos.ne.symm, hpos]]
      rw [show GoFloat.mul .posInf (.finite 100) = .posInf by
        simp [GoFloat.mul]]
      exact Round_posInf _ _
  · rw [if_neg h0]
    have hne : ((dt : ℤ) : ℚ) ≠ 0 := by exact_mod_cast h0
    rw [Prod.mk.injEq]
    refine ⟨?_, rfl⟩
    rw [GoFloat.div_finite _ _ hne]
    rw [show GoFloat.mul (.finite ((dp : ℚ) / (dt : ℚ))) (.finite 100)
        = .finite ((dp : ℚ) / (dt : ℚ) * 100) from rfl]
    rw [Round_finite]
    congr 1
    ring_nf

/-- Witness for C3: baseline `snapC`, current `snapE` — 130 ms CPU over
2000 ms wall time gives exactly 6.5 percent. -/
theorem getProcCpuPercentage_known_witness :
    getProcCpuPercentage mapC snapE = (.finite (13/2), ProcsMap.update mapC snapE.pid snapE) := by
  rw [getProcCpuPercentage_known mapC snapE snapC (by decide)]
  have hdt : Int.tdiv (snapE.ctime - snapC.ctime) 1000000 = 2000 := by decide
  have hdp : uadd64 (usub64 snapE.cpu.user snapC.cpu.user)
      (usub64 snapE.cpu.system snapC.cpu.system) = 130 := by decide
  rw [hdt, hdp]
  have hval : roundRat (100 * ((130 : ℕ) : ℚ) / ((2000 : ℤ) : ℚ)) (1/2) 2 = 13/2 := by
    have h1 : 100 * ((130 : ℕ) : ℚ) / ((2000 : ℤ) : ℚ) = 13/2 := by norm_num
    rw [h1]
    have h2 := roundRat_floor_case (13/2) (1/2) 2 650 (by norm_num)
      (by norm_num [Int.floor_eq_iff]) (by norm_num [Int.floor_eq_iff])
    rw [h2]
    norm_num
  rw [if_neg (by norm_num : ¬((2000 : ℤ) = 0)), hval]

/-- A concrete system CPU snapshot. -/
def cpuA : CpuTimes :=
  { user := 300, nice := 10, system := 40, idle := 800, iowait := 5, irq := 1,
    softirq := 2, steal := 0 }

/-- Another concrete system CPU snapshot. -/
def cpuB : CpuTimes :=
  { user := 7, nice := 0, system := 0, idle := 0, iowait := 0, irq := 0,
    softirq := 0, steal := 0 }

/-- The all-zero system CPU snapshot. -/
def cpuZero : CpuTimes :=
  { user := 0, nice := 0, system := 0, idle := 0, iowait := 0, irq := 0,
    softirq := 0, steal := 0 }

/-- A snapshot one tick after `cpuZero`: 1 unit of user time against 999999
units of idle time. -/
def cpuTiny : CpuTimes :=
  { user := 1, nice := 0, system := 0, idle := 999999, iowait := 0, irq := 0,
    softirq := 0, steal := 0 }

/-- Snapshot A of the spec's end-to-end example: `user=1000`, counter sum 5000. -/
def cpuSnapA : CpuTimes :=
  { user := 1000, nice := 0, system := 0, idle := 4000, iowait := 0, irq := 0,
    softirq := 0, steal := 0 }

/-- Snapshot B of the spec's end-to-end example: `user=1050`, counter sum 5100. -/
def cpuSnapB : CpuTimes :=
  { user := 1050, nice := 0, system := 0, idle := 4050, iowait := 0, irq := 0,
    softirq := 0, steal := 0 }

/-- Counterexample to C4: two consecutive snapshots with equal counter sums
(here: two identical snapshots) make `getCpuPercentage` return `NaN`, not 0 —
the division `float64(100*user_delta)/float64(all_delta)` on line 80 of
`src/main.go` is not guarded against `all_delta == 0`. -/
theorem getCpuPercentage_nan_cex :
    (getCpuPercentage (some cpuA) cpuA).1 = .nan ∧ GoFloat.nan ≠ .finite 0 := by
  constructor
  · unfold getCpuPercentage
    simp only
    rw [usub64_self, usub64_self]
    rw [show umul64 100 0 = 0 by decide]
    simp only [Nat.cast_zero]
    rw [show GoFloat.div (.finite (0 : ℚ)) (.finite 0) = .nan by simp [GoFloat.div]]
    exact Round_nan _ _
  · decide

/-- C4 (amended): when the two `uint64` counter sums are equal
(`deltaAll == 0`), `getCpuPercentage` performs the unguarded division and
returns `NaN` when the numerator `100*deltaUser` (mod `2^64`) is 0, and
`+Inf` otherwise — never 0. -/
theorem getCpuPercentage_equal_sums (t1 t2 : CpuTimes) (h : t2.sum = t1.sum) :
    (getCpuPercentage (some t1) t2).1 =
      (if umul64 100 (usub64 t2.user t1.user) = 0 then GoFloat.nan else GoFloat.posInf) := by
  unfold getCpuPercentage
  simp only
  rw [h, usub64_self]
  by_cases hn : umul64 100 (usub64 t2.user t1.user) = 0
  · rw [if_pos hn, hn]
    simp only [Nat.cast_zero]
    rw [show GoFloat.div (.finite (0 : ℚ)) (.finite 0) = .nan by simp [GoFloat.div]]
    exact Round_nan _ _
  · rw [if_neg hn]
    have hpos : (0 : ℚ) < ((umul64 100 (usub64 t2.user t1.user) : ℕ) : ℚ) := by
      exact_mod_cast Nat.pos_of_ne_zero hn
    simp only [Nat.cast_zero]
    rw [show GoFloat.div (.finite ((umul64 100 (usub64 t2.user t1.user) : ℕ) : ℚ))
        (.finite 0) = .posInf by simp [GoFloat.div, hpos.ne.symm, hpos]]
    exact Round_posInf _ _

/-- Witness for C4: a repeated snapshot taken through the amended theorem. -/
theorem getCpuPercentage_equal_sums_witness :
    (getCpuPercentage (some cpuB) cpuB).1 = GoFloat.nan := by
  rw [getCpuPercentage_equal_sums cpuB cpuB rfl]
  decide

/-- Monotone counters: every one of the eight counters is non-decreasing
between two snapshots (the spec's data-model assumption). -/
def CpuMono (t1 t2 : CpuTimes) : Prop :=
  t1.user ≤ t2.user ∧ t1.nice ≤ t2.nice ∧ t1.system ≤ t2.system ∧
    t1.idle ≤ t2.idle ∧ t1.iowait ≤ t2.iowait ∧ t1.irq ≤ t2.irq ∧
    t1.softirq ≤ t2.softirq ∧ t1.steal ≤ t2.steal

instance (t1 t2 : CpuTimes) : Decidable (CpuMono t1 t2) := by
  unfold CpuMono
  infer_instance

/-- Counterexample to C7: a second call with `deltaAll > 0` and
`deltaUser > 0` can return exactly 0 — `100*1/1000000 = 0.0001` rounds to 0
at two decimals, which is not in the interval `(0, 100]`. -/
theorem getCpuPercentage_rounds_to_zero_cex :
    0 < usub64 cpuTiny.sum cpuZero.sum ∧ 0 < usub64 cpuTiny.user cpuZero.user ∧
    (getCpuPercentage (some cpuZero) cpuTiny).1 = .finite 0 ∧
    ¬((0 : ℚ) < 0 ∧ (0 : ℚ) ≤ 100) := by
  refine ⟨by decide, by decide, ?_, by norm_num⟩
  unfold getCpuPercentage
  simp only
  rw [show usub64 cpuTiny.user cpuZero.user = 1 by decide]
  rw [show usub64 cpuTiny.sum cpuZero.sum = 1000000 by decide]
  rw [show umul64 100 1 = 100 by decide]
  rw [GoFloat.div_finite _ _ (by norm_num)]
  rw [Round_finite]
  congr 1
  rw [show ((100 : ℕ) : ℚ) / ((1000000 : ℕ) : ℚ) = 1/10000 by norm_num]
  rw [roundRat_floor_case (1/10000) (1/2) 2 0 (by norm_num)
    (by norm_num [Int.floor_eq_iff]) (by norm_num [Int.floor_eq_iff])]
  norm_num

/-- C7 (amended): the first call to `getCpuPercentage` (no stored baseline)
returns 0 and stores the snapshot as baseline; a second call with monotone
counters, `deltaAll > 0` and `deltaUser > 0` returns
`100 * deltaUser / deltaAll` rounded to two decimals, a value in the closed
interval `[0, 100]` — rounding can produce exactly 0, so the open bound of
the original claim fails.  The bound hypothesis keeps `100 * deltaUser`
inside `uint64` range. -/
theorem getCpuPercentage_first_then_bounded (t1 t2 : CpuTimes)
    (hm : CpuMono t1 t2) (hb : 100 * t2.rawSum < u64)
    (hall : t1.rawSum < t2.rawSum) (huser : t1.user < t2.user) :
    getCpuPercentage none t1 = (.finite 0, some t1) ∧
    ∃ q : ℚ,
      getCpuPercentage (some t1) t2 = (.finite q, some t2) ∧
      q = roundRat ((100 * ((t2.user - t1.user : ℕ) : ℚ))
            / ((t2.rawSum - t1.rawSum : ℕ) : ℚ)) (1/2) 2 ∧
      0 ≤ q ∧ q ≤ 100 := by
  obtain ⟨hmu, hmn, hms, hmi, hmw, hmq, hmf, hmt⟩ := hm
  constructor
  · unfold getCpuPercentage
    simp only
    rw [Round_finite, roundRat_zero]
  · have hraw2 : t2.rawSum < u64 := by unfold u64 at *; omega
    have hraw1 : t1.rawSum < u64 := lt_trans hall hraw2
    have huser2 : t2.user < u64 := by unfold CpuTimes.rawSum at hraw2; omega
    have hsum2 : t2.sum = t2.rawSum := CpuTimes.sum_eq t2 hraw2
    have hsum1 : t1.sum = t1.rawSum := CpuTimes.sum_eq t1 hraw1
    have hud : usub64 t2.user t1.user = t2.user - t1.user :=
      usub64_eq _ _ huser.le huser2
    have hua : usub64 t2.rawSum t1.rawSum = t2.rawSum - t1.rawSum :=
      usub64_eq _ _ hall.le hraw2
    have hum : umul64 100 (t2.user - t1.user) = 100 * (t2.user - t1.user) := by
      apply umul64_eq
      unfold CpuTimes.rawSum at *
      unfold u64 at *
      omega
    have hdpos : 0 < t2.rawSum - t1.rawSum := by omega
    have hdne : ((t2.rawSum - t1.rawSum : ℕ) : ℚ) ≠ 0 := by
      exact_mod_cast Nat.pos_iff_ne_zero.mp hdpos
    have hdposq : (0 : ℚ) < ((t2.rawSum - t1.rawSum : ℕ) : ℚ) := by exact_mod_cast hdpos
    have hle : t2.user - t1.user ≤ t2.rawSum - t1.rawSum := by
      unfold CpuTimes.rawSum at *
      omega
    have hv0 : (0 : ℚ) ≤ ((100 * (t2.user - t1.user) : ℕ) : ℚ)
        / ((t2.rawSum - t1.rawSum : ℕ) : ℚ) := by positivity
    have hv100 : ((100 * (t2.user - t1.user) : ℕ) : ℚ)
        / ((t2.rawSum - t1.rawSum : ℕ) : ℚ) ≤ 100 := by
      rw [div_le_iff₀ hdposq]
      have : ((100 * (t2.user - t1.user) : ℕ) : ℚ)
          ≤ ((100 * (t2.rawSum - t1.rawSum) : ℕ) : ℚ) := by
        exact_mod_cast Nat.mul_le_mul_left 100 hle
      calc ((100 * (t2.user - t1.user) : ℕ) : ℚ)
          ≤ ((100 * (t2.rawSum - t1.rawSum) : ℕ) : ℚ) := this
        _ = 100 * ((t2.rawSum - t1.rawSum : ℕ) : ℚ) := by push_cast; ring
    refine ⟨roundRat (((100 * (t2.user - t1.user) : ℕ) : ℚ)
      / ((t2.rawSum - t1.rawSum : ℕ) : ℚ)) (1/2) 2, ?_, ?_, ?_, ?_⟩
    · unfold getCpuPercentage
      simp only
      rw [hsum2, hsum1, hud, hua, hum]
      rw [GoFloat.div_finite _ _ hdne]
      rw [Round_finite]
    · congr 1
      push_cast
      ring
    · exact roundRat_nonneg _ _ _ hv0
    · exact roundRat_le_hundred _ _ _ hv0 hv100

/-- Witness for C7: priming with snapshot A (`user=1000`, sum 5000) and
calling with snapshot B (`user=1050`, sum 5100) yields exactly 50.00. -/
theorem getCpuPercentage_first_then_bounded_witness :
    getCpuPercentage none cpuSnapA = (.finite 0, some cpuSnapA) ∧
    (getCpuPercentage (some cpuSnapA) cpuSnapB).1 = .finite 50 := by
  have h := getCpuPercentage_first_then_bounded cpuSnapA cpuSnapB
    (by decide) (by decide) (by decide) (by decide)
  refine ⟨h.1, ?_⟩
  obtain ⟨q, hq, hformula, h0, h100⟩ := h.2
  rw [hq]
  rw [hformula]
  rw [show cpuSnapB.user - cpuSnapA.user = 50 from rfl]
  rw [show cpuSnapB.rawSum - cpuSnapA.rawSum = 100 from rfl]
  rw [show (100 : ℚ) * ((50 : ℕ) : ℚ) / ((100 : ℕ) : ℚ) = 50 by norm_num]
  rw [roundRat_floor_case 50 (1/2) 2 5000 (by norm_num)
    (by norm_num [Int.floor_eq_iff]) (by norm_num [Int.floor_eq_iff])]
  norm_num

/-- Concrete memory statistics: 10 MB of physical memory. -/
def memB : MemStat := { total := 10000000, used := 0 }

/-- Concrete per-process memory statistics: 2 MB resident. -/
def procMemB : ProcMemStat := { rss := 2000000, rssPercent := .finite 0 }

/-- Counterexample to C5: when `GetMemory` succeeds but reports a total of 0
and the process has positive rss, `getRssPercent` returns `+Inf`, not 0 —
the division on line 65 of `src/main.go` is not guarded against a zero
total; only a failed `GetMemory` call returns 0. -/
theorem getRssPercent_zero_total_cex :
    getRssPercent (.ok { total := 0, used := 0 }) procMemB = .posInf ∧
    GoFloat.posInf ≠ .finite 0 := by
  constructor
  · show Round (GoFloat.mul (GoFloat.div (.finite ((2000000 : ℕ) : ℚ))
      (.finite ((0 : ℕ) : ℚ))) (.finite 100)) (.finite (1/2)) 2 = .posInf
    have hpos : (0 : ℚ) < ((2000000 : ℕ) : ℚ) := by norm_num
    rw [Nat.cast_zero]
    rw [show GoFloat.div (.finite ((2000000 : ℕ) : ℚ)) (.finite 0) = .posInf by
      simp [GoFloat.div, hpos, hpos.ne.symm]]
    rw [show GoFloat.mul .posInf (.finite 100) = .posInf by simp [GoFloat.mul]]
    exact Round_posInf _ _
  · decide

/-- C5 (amended): `getRssPercent` returns `rss / total * 100` rounded to two
decimals whenever the `GetMemory` query succeeds with a non-zero total; it
returns 0 (after a logged, non-fatal warning) only when the query fails;
when the query succeeds with total = 0 the division is unguarded and the
result is `+Inf` (positive rss) or `NaN` (zero rss), not 0.  In particular
`rss=2000000` with `total=10000000` yields exactly 20.00. -/
theorem getRssPercent_spec (mres : Except String MemStat) (pm : ProcMemStat) :
    (∀ e : String, mres = .error e → getRssPercent mres pm = .finite 0) ∧
    (∀ ms : MemStat, mres = .ok ms → ms.total ≠ 0 →
      getRssPercent mres pm =
        .finite (roundRat ((pm.rss : ℚ) / (ms.total : ℚ) * 100) (1/2) 2)) ∧
    (∀ ms : MemStat, mres = .ok ms → ms.total = 0 → pm.rss ≠ 0 →
      getRssPercent mres pm = .posInf) ∧
    (∀ ms : MemStat, mres = .ok ms → ms.total = 0 → pm.rss = 0 →
      getRssPercent mres pm = .nan) ∧
    getRssPercent (.ok memB) procMemB = .finite 20 := by
  refine ⟨?_, ?_, ?_, ?_, ?_⟩
  · intro e he
    rw [he]
    rfl
  · intro ms hok htot
    rw [hok]
    show Round (GoFloat.mul (GoFloat.div (.finite (pm.rss : ℚ))
      (.finite (ms.total : ℚ))) (.finite 100)) (.finite (1/2)) 2 = _
    rw [GoFloat.div_finite _ _ (by exact_mod_cast htot)]
    rw [show GoFloat.mul (.finite ((pm.rss : ℚ) / (ms.total : ℚ))) (.finite 100)
        = .finite ((pm.rss : ℚ) / (ms.total : ℚ) * 100) from rfl]
    rw [Round_finite]
  · intro ms hok htot hrss
    rw [hok]
    show Round (GoFloat.mul (GoFloat.div (.finite (pm.rss : ℚ))
      (.finite (ms.total : ℚ))) (.finite 100)) (.finite (1/2)) 2 = _
    have hpos : (0 : ℚ) < (pm.rss : ℚ) := by exact_mod_cast Nat.pos_of_ne_zero hrss
    rw [htot, Nat.cast_zero]
    rw [show GoFloat.div (.finite (pm.rss : ℚ)) (.finite 0) = .posInf by
      simp [GoFloat.div, hpos, hpos.ne.symm]]
    rw [show GoFloat.mul .posInf (.finite 100) = .posInf by simp [GoFloat.mul]]
    exact Round_posInf _ _
  · intro ms hok htot hrss
    rw [hok]
    show Round (GoFloat.mul (GoFloat.div (.finite (pm.rss : ℚ))
      (.finite (ms.total : ℚ))) (.finite 100)) (.finite (1/2)) 2 = _
    rw [htot, hrss, Nat.cast_zero]
    rw [show GoFloat.div (.finite (0 : ℚ)) (.finite 0) = .nan by simp [GoFloat.div]]
    rw [show GoFloat.mul .nan (.finite 100) = .nan from rfl]
    exact Round_nan _ _
  · show Round (GoFloat.mul (GoFloat.div (.finite ((2000000 : ℕ) : ℚ))
      (.finite ((10000000 : ℕ) : ℚ))) (.finite 100)) (.finite (1/2)) 2 = .finite 20
    rw [GoFloat.div_finite _ _ (by norm_num)]
    rw [show GoFloat.mul (.finite (((2000000 : ℕ) : ℚ) / ((10000000 : ℕ) : ℚ)))
        (.finite 100) = .finite (((2000000 : ℕ) : ℚ) / ((10000000 : ℕ) : ℚ) * 100) from rfl]
    rw [Round_finite]
    congr 1
    rw [show ((2000000 : ℕ) : ℚ) / ((10000000 : ℕ) : ℚ) * 100 = 20 by norm_num]
    rw [roundRat_floor_case 20 (1/2) 2 2000 (by norm_num)
      (by norm_num [Int.floor_eq_iff]) (by norm_num [Int.floor_eq_iff])]
    norm_num

/-- Witness for C5: a failed `GetMemory` query returns 0 without aborting. -/
theorem getRssPercent_spec_witness :
    getRssPercent (.error "getting memory details failed") procMemB = .finite 0 :=
  (getRssPercent_spec (.error "getting memory details failed") procMemB).1
    "getting memory details failed" rfl

theorem matchCore_nil (fuel : ℕ) (s : List Char) :
    matchCore (fuel + 1) [] s false = true := by
  simp [matchCore]

theorem runMatchCore_dotstar (s : List Char) :
    runMatchCore [(RItem.dot, true)] s false = true := by
  show matchCore (s.length + 1 + 1) [(RItem.dot, true)] s false = true
  simp [matchCore]

theorem matchFrom_dotstar (s : List Char) :
    matchFrom (s.length + 1) [(RItem.dot, true)] s false = true := by
  simp [matchFrom, runMatchCore_dotstar]

theorem MatchProcess_iff (procs : List String) (name : String) :
    MatchProcess procs name = true ↔
      ∃ reg ∈ procs, regexpMatchString reg name = .ok true := by
  unfold MatchProcess
  rw [List.any_eq_true]
  constructor
  · rintro ⟨reg, hmem, hreg⟩
    refine ⟨reg, hmem, ?_⟩
    cases h : regexpMatchString reg name with
    | ok b =>
        rw [h] at hreg
        simp only at hreg
        rw [hreg]
    | error e =>
        rw [h] at hreg
        simp at hreg
  · rintro ⟨reg, hmem, hreg⟩
    exact ⟨reg, hmem, by rw [hreg]⟩

theorem MatchProcess_perm (l1 l2 : List String) (name : String) (h : l1.Perm l2) :
    MatchProcess l1 name = MatchProcess l2 name := by
  unfold MatchProcess
  induction h with
  | nil => rfl
  | cons x _ ih => simp only [List.any_cons, ih]
  | swap x y l => simp only [List.any_cons, ← Bool.or_assoc, Bool.or_comm]
  | trans _ _ ih1 ih2 => rw [ih1, ih2]

theorem MatchProcess_dotstar (name : String) : MatchProcess [".*"] name = true := by
  unfold MatchProcess
  simp only [List.any_cons, List.any_nil, Bool.or_false]
  rw [show regexpMatchString ".*" name =
    .ok (matchFrom (name.toList.length + 1) [(RItem.dot, true)] name.toList false) from rfl]
  simp only
  exact matchFrom_dotstar name.toList

/-- C8: `MatchProcess` returns `true` iff the name matches at least one
configured pattern (under the modelled unanchored regular-expression
semantics); reordering the pattern list never changes the result; the single
pattern `".*"` matches every name; the single pattern `"^nginx$"` matches
`"nginx"` and rejects `"nginx-worker"`. -/
theorem MatchProcess_spec :
    (∀ (procs : List String) (name : String),
      MatchProcess procs name = true ↔
        ∃ reg ∈ procs, regexpMatchString reg name = .ok true) ∧
    (∀ (l1 l2 : List String) (name : String), l1.Perm l2 →
      MatchProcess l1 name = MatchProcess l2 name) ∧
    (∀ name : String, MatchProcess [".*"] name = true) ∧
    MatchProcess ["^nginx$"] "nginx" = true ∧
    MatchProcess ["^nginx$"] "nginx-worker" = false := by
  exact ⟨MatchProcess_iff, fun l1 l2 name h => MatchProcess_perm l1 l2 name h,
    MatchProcess_dotstar, by decide, by decide⟩

/-- Witness for C8: the order-independence part applied to a concrete
two-pattern swap. -/
theorem MatchProcess_spec_witness :
    MatchProcess ["^nginx$", ".*"] "alpha" = MatchProcess [".*", "^nginx$"] "alpha" :=
  MatchProcess_spec.2.1 ["^nginx$", ".*"] [".*", "^nginx$"] "alpha"
    (List.Perm.swap ".*" "^nginx$" [])

/-- C9: a configured pattern that is not a valid regular expression is
silently treated as matching no name: `MatchProcess` discards the compile
error (`matched, _ := regexp.MatchString(...)` on line 38 of `src/main.go`),
so the invalid pattern contributes nothing — a process reported only via
that pattern is never matched — and no error or abort ever results
(`MatchProcess` stays a total boolean function). -/
theorem MatchProcess_invalid_pattern (pat : String) (h : parsePattern pat = none) :
    (∀ name : String, regexpMatchString pat name = .error "error parsing regexp") ∧
    (∀ (name : String) (procs : List String),
      MatchProcess (pat :: procs) name = MatchProcess procs name) ∧
    (∀ name : String, MatchProcess [pat] name = false) := by
  have herr : ∀ name : String,
      regexpMatchString pat name = .error "error parsing regexp" := by
    intro name
    unfold regexpMatchString
    rw [h]
  refine ⟨herr, ?_, ?_⟩
  · intro name procs
    unfold MatchProcess
    simp [List.any_cons, herr name]
  · intro name
    unfold MatchProcess
    simp [List.any_cons, herr name]

/-- Witness for C9: the invalid pattern `"*"` (a repetition operator with no
operand) never matches. -/
theorem MatchProcess_invalid_pattern_witness :
    MatchProcess ["*"] "bash" = false :=
  (MatchProcess_invalid_pattern "*" (by decide)).2.2 "bash"

/-- A snapshot of pid 5, named "other" (which `"^nginx$"` does not match). -/
def snapA : Process :=
  { pid := 5, ppid := 1, name := "other", state := "S",
    cpu := { user := 100, system := 50, userPercent := .finite 0 },
    mem := { rss := 1000, rssPercent := .finite 0 }, ctime := 0 }

/-- A later snapshot of pid 5 with advanced CPU counters and capture time. -/
def snapB : Process :=
  { pid := 5, ppid := 1, name := "other", state := "S",
    cpu := { user := 200, system := 80, userPercent := .finite 0 },
    mem := { rss := 1000, rssPercent := .finite 0 }, ctime := 2000000000 }

/-- A tracker map holding only the baseline `snapA` for pid 5. -/
def mapA : ProcsMap := fun k => if k = 5 then some snapA else none

/-- Counterexample to C1: a tick that observes `snapB` for pid 5 under the
pattern list `["^nginx$"]` (which does not match the name "other") leaves the
stored baseline at the old `snapA` — the observed snapshot is NOT stored,
because `exportProcStats` only touches the map inside the
`if t.MatchProcess(process.Name)` branch (lines 167-172 of `src/main.go`). -/
theorem exportProcStats_filtered_baseline_cex :
    (exportProcStats ["^nginx$"] mapA (.ok [5]) (fun _ => .ok snapB) (.ok memB)).1 5
      = some snapA ∧ snapA ≠ snapB := by
  constructor
  · decide
  · decide

/-- The enriched snapshot stored and emitted for a matched process: the
observed snapshot with its two percent fields filled in. -/
def enrichProc (m : ProcsMap) (memRes : Except String MemStat) (p : Process) : Process :=
  { pid := p.pid, ppid := p.ppid, name := p.name, state := p.state,
    cpu := { user := p.cpu.user, system := p.cpu.system,
             userPercent := (getProcCpuPercentage m p).1 },
    mem := { rss := p.mem.rss, rssPercent := getRssPercent memRes p.mem },
    ctime := p.ctime }

/-- C1 (amended): during a tick, only a process whose name matches the
configured patterns has its stored baseline replaced by the observed snapshot
(with percent fields filled in); a filtered-out process leaves its tracker
entry — and everything else — completely untouched, so a later matched
observation of the same pid computes its delta from the last MATCHED
observation (or the startup seeding), not from the last observation. -/
theorem exportProcStep_baseline (procs : List String) (memRes : Except String MemStat)
    (m : ProcsMap) (evs : List Process) (p : Process) :
    (MatchProcess procs p.name = false →
      exportProcStep procs memRes (m, evs) (.ok p) = (m, evs)) ∧
    (MatchProcess procs p.name = true →
      ∃ p2 : Process,
        (exportProcStep procs memRes (m, evs) (.ok p)).1 p.pid = some p2 ∧
        p2.cpu.user = p.cpu.user ∧ p2.cpu.system = p.cpu.system ∧
        p2.ctime = p.ctime ∧ p2.mem.rss = p.mem.rss ∧ p2.pid = p.pid) := by
  constructor
  · intro hf
    unfold exportProcStep
    simp only [hf]
    rfl
  · intro ht
    unfold exportProcStep
    simp only [ht, if_true]
    refine ⟨enrichProc m memRes p, ?_, rfl, rfl, rfl, rfl, rfl⟩
    unfold ProcsMap.update
    simp [enrichProc]

/-- Witness for C1: under `["^nginx$"]` the observation of `snapB` (named
"other") changes nothing; under the catch-all `[".*"]` it is stored. -/
theorem exportProcStep_baseline_witness :
    exportProcStep ["^nginx$"] (.ok memB) (mapA, []) (.ok snapB) = (mapA, []) ∧
    ∃ p2 : Process,
      (exportProcStep [".*"] (.ok memB) (mapA, []) (.ok snapB)).1 snapB.pid = some p2 ∧
      p2.cpu.user = snapB.cpu.user ∧ p2.cpu.system = snapB.cpu.system ∧
      p2.ctime = snapB.ctime ∧ p2.mem.rss = snapB.mem.rss ∧ p2.pid = snapB.pid :=
  ⟨(exportProcStep_baseline ["^nginx$"] (.ok memB) mapA [] snapB).1 (by decide),
   (exportProcStep_baseline [".*"] (.ok memB) mapA [] snapB).2 (by decide)⟩

theorem exportProcStats_nil_procs (m : ProcsMap) (pr : Except String (List ℤ))
    (f : ℤ → Except String Process) (mr : Except String MemStat) :
    exportProcStats [] m pr f mr = (m, [], .ok ()) := rfl

theorem runProcTicks_nil_procs (m : ProcsMap) (ticks : List ProcTick) :
    runProcTicks [] m ticks = (m, []) := by
  induction ticks generalizing m with
  | nil => rfl
  | cons t ts ih => simp [runProcTicks, exportProcStats_nil_procs, ih]

/-- C10: with `Procs` configured as the explicitly empty list (unlike an
absent list, which defaults to the catch-all `".*"`), `initProcStats` resets
the map to empty and returns before enumerating processes, and every
`exportProcStats` tick returns immediately: over an entire run no proc event
is ever emitted and the pid-to-snapshot map stays empty. -/
theorem emptyProcList_never_exports (pr : Except String (List ℤ))
    (f : ℤ → Except String Process) (ticks : List ProcTick) :
    initProcsConfig none = [".*"] ∧
    initProcsConfig (some []) = [] ∧
    initProcStats (initProcsConfig (some [])) pr f = emptyProcsMap ∧
    (runProcTicks (initProcsConfig (some []))
      (initProcStats (initProcsConfig (some [])) pr f) ticks).2 = [] ∧
    (∀ pid : ℤ, (runProcTicks (initProcsConfig (some []))
      (initProcStats (initProcsConfig (some [])) pr f) ticks).1 pid = none) := by
  refine ⟨rfl, rfl, rfl, ?_, ?_⟩
  · show (runProcTicks [] emptyProcsMap ticks).2 = []
    rw [runProcTicks_nil_procs]
  · intro pid
    show (runProcTicks [] emptyProcsMap ticks).1 pid = none
    rw [runProcTicks_nil_procs]
    rfl

end Topbeat
